import Mathlib

/-!
A verification development for the polymorphism-resolution pipeline of
`src/graphile-build/graphile-build-pg/src/plugins/PgPolymorphismPlugin.ts`.

The TypeScript code is shallowly embedded: JavaScript records (plain objects
keyed by strings) become association lists `List (String × α)` with the
property-access and property-assignment semantics given by `recordGet` and
`recordSet`; JavaScript strings handled character by character (the
attribute-override mini-grammar) become `List Char`; fallible code becomes
`Except String α`; the asynchronous introspection and inflection collaborators
become explicit function parameters.  Helpers that the plugin imports from
outside the excerpted sources (`arraysMatch` from grafast, `getBehavior` from
graphile-build-pg's behavior module) are modelled from the specification's
description of them; each such definition says so in its doc comment.
-/

/-! ## Postgres introspection model -/

/-- A table column as introspection reports it: its position (`attnum`,
system columns are negative) and its name. -/
structure PgAttribute where
  attnum : Int
  attname : String
deriving DecidableEq

/-- Constraint kind: primary key (`p`), foreign key (`f`), or anything else. -/
inductive PgConType where
  | p
  | f
  | other
deriving DecidableEq

/-- A table constraint: its kind, the oid of the referenced table
(`confrelid`, meaningful for foreign keys), the constrained local columns
(`getAttributes()`), and the referenced columns (`getForeignAttributes()`). -/
structure PgConstraint where
  contype : PgConType
  confrelid : Nat
  conAttributes : List PgAttribute
  conForeignAttributes : List PgAttribute
deriving DecidableEq

/-- A table as introspection reports it (`PgClass`): oid (`_id` in the
source), name, namespace name, columns and constraints. -/
structure PgClass where
  oid : Nat
  relname : String
  nspname : String
  attributes : List PgAttribute
  constraints : List PgConstraint
deriving DecidableEq

/-- Modelled from the spec: `arraysMatch` is imported from grafast and is not
under `src/`.  The spec's RelationSpec invariant states that "matching two
key-sets requires exact positional equality, not merely set equality", so two
attribute lists match exactly when they are equal as lists. -/
def arraysMatch {α : Type} [DecidableEq α] (a b : List α) : Bool :=
  decide (a = b)

/-- `cls.getConstraints().find((c) => c.contype === "p")`: the first primary
key constraint of a class (used for both `pk` and `remotePk` in the source). -/
def findPrimaryKey (cls : PgClass) : Option PgConstraint :=
  cls.constraints.find? (fun c => decide (c.contype = PgConType.p))

/-- `pgClass.getAttribute({ name })`: look an attribute up by name. -/
def getAttribute (cls : PgClass) (name : String) : Option PgAttribute :=
  cls.attributes.find? (fun a => decide (a.attname = name))

/-! ## Discovery: relational-mode foreign-key validation (lines 225-255) -/

/-- The relational-mode `@type` validation of `pgCodecs_recordType_spec`
(PgPolymorphismPlugin.ts lines 225-255): find the root's primary key and the
referenced class's primary key (failing when either is missing), then search
the referenced class's constraints for a foreign key that targets the root
(`confrelid`), whose local attributes positionally match the referenced
class's primary key and whose foreign attributes positionally match the
root's primary key (failing when no such constraint exists). -/
def relationalTypeFkCheck (pgClass referencedClass : PgClass) :
    Except String PgConstraint :=
  match findPrimaryKey pgClass, findPrimaryKey referencedClass with
  | some pk, some remotePk =>
    match referencedClass.constraints.find? (fun c =>
        decide (c.contype = PgConType.f) &&
        decide (c.confrelid = pgClass.oid) &&
        arraysMatch c.conAttributes remotePk.conAttributes &&
        arraysMatch c.conForeignAttributes pk.conAttributes) with
    | some c => Except.ok c
    | none =>
      Except.error
        "Could not build polymorphic reference due to missing foreign key constraint"
  | _, _ =>
    Except.error "Could not build polymorphic reference due to missing primary key"

/-! ## Discovery: the discriminator attribute check (lines 128-138, 181-190) -/

/-- The parameters of an `interface(...)` smart tag after
`parseSmartTagsOptsString` (that parser lives in `../utils.js`, outside the
excerpted sources; its output shape is taken as given). -/
structure InterfaceTagParams where
  mode : Option String
  type : Option String
  name : Option String
deriving DecidableEq

/-- The discriminator check shared by the `single` (lines 128-138) and
`relational` (lines 181-190) branches of `pgCodecs_recordType_spec`:
`const { type = "type" } = params` defaults the discriminator attribute name
to `"type"`, and the branch throws when the class has no attribute of that
name. -/
def discriminatorCheck (params : InterfaceTagParams) (pgClass : PgClass) :
    Except String String :=
  let type := params.type.getD "type"
  match getAttribute pgClass type with
  | some _ => Except.ok type
  | none =>
    Except.error
      ("Invalid @interface smart tag - there is no " ++ type ++ " attribute on "
        ++ pgClass.nspname ++ "." ++ pgClass.relname)

/-! ## The attribute-override mini-grammar: parseAttribute (lines 75-90) -/

/-- The result shape of `parseAttribute`
(`PgCodecPolymorphismSingleTypeAttributeSpec`), with the raw pieces of the
override entry kept as character lists. -/
structure ParsedAttributeSpec where
  attributeName : List Char
  isNotNull : Bool
  rename : Option (List Char)
deriving DecidableEq

/-- `spec.endsWith("!")` for a string modelled as a character list. -/
def endsWithBang (s : List Char) : Bool :=
  decide (s.getLast? = some '!')

/-- `spec.split(">")` for a single-character separator: JavaScript's split,
which yields one (possibly empty) segment per separator gap; the result is
never empty. -/
def splitOnGt : List Char → List (List Char)
  | [] => [[]]
  | c :: rest =>
    if c = '>' then [] :: splitOnGt rest
    else
      match splitOnGt rest with
      | [] => [[c]]
      | h :: t => (c :: h) :: t

/-- `parseAttribute` (PgPolymorphismPlugin.ts lines 75-90): strip a trailing
`!` (recording not-null), then split the remainder on `>`; the first segment
is the attribute name and the second, when present, the rename.  Strings are
modelled as character lists. -/
def parseAttribute (colSpec : List Char) : ParsedAttributeSpec :=
  let spec := if endsWithBang colSpec then colSpec.dropLast else colSpec
  let parts := splitOnGt spec
  { attributeName := parts.headD [],
    isNotNull := endsWithBang colSpec,
    rename := match parts with
      | _ :: b :: _ => some b
      | _ => none }

/-! ## Discovery: single-mode commonAttributes (lines 145-178) -/

/-- An attribute override of a single-mode `@type` tag as the plugin stores
it (`PgCodecPolymorphismSingleTypeAttributeSpec`), names as strings. -/
structure SingleTypeAttributeSpec where
  attributeName : String
  isNotNull : Bool
  rename : Option String
deriving DecidableEq

/-- The payload of one single-mode `@type` tag after parsing: the concrete
type's name and its attribute-override list. -/
structure SingleTypeSpec where
  name : String
  attributes : List SingleTypeAttributeSpec
deriving DecidableEq

/-- The payload of one relational-mode `@type` tag after Discovery: the
concrete type's name, its `references:` string, and the derived shared
relation name. -/
structure RelationalTypeSpec where
  name : String
  references : String
  relationName : String
deriving DecidableEq

/-- `spec.polymorphism`: the exhaustive tagged union of the three modes.
`types` maps, in insertion order, each discriminator value to its type spec. -/
inductive PolymorphismSpec where
  | single (commonAttributes : List String) (typeAttributes : List String)
      (types : List (String × SingleTypeSpec))
  | relational (typeAttributes : List String)
      (types : List (String × RelationalTypeSpec))
  | union
deriving DecidableEq

/-- Lines 145-148: `pgClass.getAttributes().filter((a) => a.attnum >= 1)
.map((a) => a.attname)` - the table's user-column names. -/
def singleAttributeNames (pgClass : PgClass) : List String :=
  (pgClass.attributes.filter (fun a => decide (1 ≤ a.attnum))).map
    (fun a => a.attname)

/-- Lines 152-168: the `specificAttributes` set, accumulated from every
`@type` tag's override list (kept as a list; only membership is used). -/
def singleSpecificAttributes (typeTags : List (String × SingleTypeSpec)) :
    List String :=
  List.flatten (typeTags.map (fun t => t.2.attributes.map (fun c => c.attributeName)))

/-- Lines 170-172: `commonAttributes = attributeNames.filter((n) =>
!specificAttributes.has(n))`. -/
def singleCommonAttributes (pgClass : PgClass)
    (typeTags : List (String × SingleTypeSpec)) : List String :=
  (singleAttributeNames pgClass).filter
    (fun n => !(singleSpecificAttributes typeTags).contains n)

/-! ## Record (plain-object) operations -/

/-- JavaScript property read `m[k]` on a plain object modelled as an
association list in insertion order. -/
def recordGet {α : Type} (m : List (String × α)) (k : String) : Option α :=
  match m with
  | [] => none
  | (k', v) :: t => if k' = k then some v else recordGet t k

/-- JavaScript property write `m[k] = v`: an existing key is overwritten in
place, a new key is appended. -/
def recordSet {α : Type} (m : List (String × α)) (k : String) (v : α) :
    List (String × α) :=
  match m with
  | [] => [(k, v)]
  | (k', v') :: t => if k' = k then (k, v) :: t else (k', v') :: recordSet t k v

/-! ## Attribute Inheritance (pgRegistry_PgRegistryBuilder_finalize, lines 393-410) -/

/-- A codec attribute (`PgCodecAttribute`): the value codec is kept as an
opaque name, extensions as an opaque list. -/
structure PgCodecAttribute where
  codec : String
  notNull : Bool
  hasDefault : Bool
  via : Option String
  identicalVia : Option String
  restrictedAccess : Bool
  description : Option String
  extensions : List String
deriving DecidableEq

/-- Lines 393-410 of `pgRegistry_PgRegistryBuilder_finalize`: for every
attribute of the root codec, either mark the subtype's same-named attribute
`identicalVia = sharedRelationName`, or synthesize a new attribute on the
subtype carrying the root's codec, notNull, hasDefault, restrictedAccess,
description and extensions, with `via = sharedRelationName`. -/
def inheritAttributes (rootAttributes : List (String × PgCodecAttribute))
    (sharedRelationName : String)
    (otherAttributes : List (String × PgCodecAttribute)) :
    List (String × PgCodecAttribute) :=
  rootAttributes.foldl (fun acc p =>
    match recordGet acc p.1 with
    | some a =>
      recordSet acc p.1 { a with identicalVia := some sharedRelationName }
    | none =>
      recordSet acc p.1
        { codec := p.2.codec,
          notNull := p.2.notNull,
          hasDefault := p.2.hasDefault,
          via := some sharedRelationName,
          identicalVia := none,
          restrictedAccess := p.2.restrictedAccess,
          description := p.2.description,
          extensions := p.2.extensions }) otherAttributes

/-! ## Codec, resource and relation model -/

/-- A codec (`PgCodec`) as the later passes see it: name, polymorphism spec,
behavior flags of its extensions, its attribute map (absent for non-row
codecs), and its `@unionMember` tag occurrences (in tag order; empty when the
tag is absent). -/
structure PgCodecM where
  name : String
  polymorphism : Option PolymorphismSpec
  extensions : List String
  attributes : Option (List (String × PgCodecAttribute))
  unionMember : List String
deriving DecidableEq

/-- A resource (`PgResource`): its codec plus the behavior flags of the
resource's own extensions. -/
structure PgResourceM where
  codec : PgCodecM
  extensions : List String
deriving DecidableEq

/-- A registered relation (`PgCodecRelation`): the local codec, the remote
resource, uniqueness and referencee flags, the positionally corresponding
local/remote attribute name lists, and the relation's own behavior flags. -/
structure PgCodecRelation where
  localCodec : PgCodecM
  remoteResource : PgResourceM
  isUnique : Bool
  isReferencee : Bool
  localAttributes : List String
  remoteAttributes : List String
  extensions : List String
deriving DecidableEq

/-! ## Reference Synthesis (pgRegistry_PgRegistry, lines 532-584) -/

/-- Modelled from the spec: `getBehavior` lives in `../behavior.js`, outside
the excerpted sources.  Per the spec, "the synthesized reference's exposed
behavior flags are the union of" the given extension sources' flags: each
source contributes its flags in order. -/
def getBehavior (sources : List (List String)) : List String :=
  List.flatten sources

/-- One hop of a ref path (`{ relationName }`). -/
structure PgRefPathEntry where
  relationName : String
deriving DecidableEq

/-- A synthesized ref's `definition` (PgRefDefinition); its
`extensions.tags.behavior` is kept as the `behavior` field. -/
structure PgRefDefinition where
  singular : Bool
  singleRecordFieldName : String
  listFieldName : String
  connectionFieldName : String
  behavior : List String
deriving DecidableEq

/-- A codec ref (`PgCodecRef`): a definition plus its paths. -/
structure PgCodecRef where
  definition : PgRefDefinition
  paths : List (List PgRefPathEntry)
deriving DecidableEq

/-- The naming collaborator for refs: the four field-name inflectors applied
to the original relation (the relation details reduce to the relation name in
this model). -/
structure RefInflection where
  singleRelation : String → String
  singleRelationBackwards : String → String
  manyRelationConnection : String → String
  manyRelationList : String → String

/-- Lines 532-584 of `pgRegistry_PgRegistry`: for every relation registered
on the root codec, install on the subtype's codec a ref keyed by the
relation's name, whose single path is the shared relation followed by the
original relation, whose behavior comes from `getBehavior` over the target
resource's codec extensions, the target resource's extensions and the
relation's extensions, and whose field names come from the inflection applied
to the original relation; `refs[relationName] = ref` overwrites any
pre-existing ref of that name. -/
def synthesizeRefsForSubtype (inflect : RefInflection)
    (sharedRelationName : String)
    (relations : List (String × PgCodecRelation))
    (refs : List (String × PgCodecRef)) : List (String × PgCodecRef) :=
  relations.foldl (fun acc pr =>
    let relationName := pr.1
    let relationSpec := pr.2
    let behavior := getBehavior
      [relationSpec.remoteResource.codec.extensions,
       relationSpec.remoteResource.extensions,
       relationSpec.extensions]
    let singleRecordFieldName :=
      if relationSpec.isReferencee then
        inflect.singleRelationBackwards relationName
      else
        inflect.singleRelation relationName
    let connectionFieldName := inflect.manyRelationConnection relationName
    let listFieldName := inflect.manyRelationList relationName
    let definition : PgRefDefinition :=
      { singular := relationSpec.isUnique,
        singleRecordFieldName := singleRecordFieldName,
        listFieldName := listFieldName,
        connectionFieldName := connectionFieldName,
        behavior := behavior }
    let ref : PgCodecRef :=
      { definition := definition,
        paths := [[{ relationName := sharedRelationName },
                   { relationName := relationName }]] }
    recordSet acc relationName ref) refs

/-! ## Union membership accumulation (init hook, lines 796-813) -/

/-- JavaScript's `membership.trim()`, modelled on the string's characters:
drop leading and trailing whitespace. -/
def strTrim (s : String) : String :=
  String.mk
    (((s.data.dropWhile Char.isWhitespace).reverse.dropWhile
        Char.isWhitespace).reverse)

/-- One membership registration: `unionsToRegister.get(unionName)` is absent,
so `set(unionName, [codec])` appends a fresh entry; otherwise
`list.push(codec)` appends the codec to the existing entry in place. -/
def addUnionMembership (acc : List (String × List PgCodecM))
    (unionName : String) (codec : PgCodecM) : List (String × List PgCodecM) :=
  match recordGet acc unionName with
  | none => recordSet acc unionName [codec]
  | some list => recordSet acc unionName (list ++ [codec])

/-- The union-membership scan of the `init` hook (lines 796-813): every codec
that defines attributes contributes, for each of its `@unionMember` tag
occurrences, one registration under the trimmed union name. -/
def accumulateUnionMemberships (codecs : List PgCodecM) :
    List (String × List PgCodecM) :=
  codecs.foldl (fun acc codec =>
    match codec.attributes with
    | none => acc
    | some _ =>
      codec.unionMember.foldl
        (fun acc2 membership => addUnionMembership acc2 (strTrim membership) codec)
        acc) []

/-- The member entries the amended dedup claim predicts for one union name:
one entry per `@unionMember` tag occurrence whose trimmed value is that name,
in codec-scan then tag order. -/
def unionMembershipOccurrences (codecs : List PgCodecM) (unionName : String) :
    List PgCodecM :=
  List.flatten (codecs.map (fun c =>
    match c.attributes with
    | none => []
    | some _ =>
      (c.unionMember.filter (fun m => decide (strTrim m = unionName))).map
        (fun _ => c)))

/-! ## GraphQL type model, union registration (lines 816-835) -/

/-- The kind of a constructed GraphQL named type. -/
inductive GQLTypeKind where
  | object
  | interface
  | union
  | scalar
deriving DecidableEq

/-- A constructed GraphQL named type. -/
structure GQLType where
  name : String
  kind : GQLTypeKind
deriving DecidableEq

/-- Lines 816-835 of the `init` hook: for each accumulated union name,
register one union type whose member list maps each accumulated codec to
`getTypeByName(inflection.tableType(codec))` and keeps the entries that
resolved (`filter(isNotNullish)`); nothing is raised for entries that do
not resolve. -/
def registerUnionTypes (unionsToRegister : List (String × List PgCodecM))
    (tableType : PgCodecM → String) (getTypeByName : String → Option GQLType) :
    List (String × List GQLType) :=
  unionsToRegister.map (fun p =>
    (p.1, (p.2.map (fun codec => getTypeByName (tableType codec))).filterMap id))

/-! ## Interface Completeness (GraphQLSchema_types hook, lines 882-908) -/

/-- The registration scope of an interface type
(`GraphileBuild.ScopeInterface`), as `build.scopeByType` returns it. -/
structure ScopeInterface where
  pgPolymorphism : Option PolymorphismSpec
deriving DecidableEq

/-- The declared concrete-type names of a polymorphism spec
(`Object.values(polymorphism.types).map((t) => t.name)`); a union spec
declares none. -/
def polymorphismTypeNames : PolymorphismSpec → List String
  | PolymorphismSpec.single _ _ types => types.map (fun t => t.2.name)
  | PolymorphismSpec.relational _ types => types.map (fun t => t.2.name)
  | PolymorphismSpec.union => []

/-- The `GraphQLSchema_types` hook (lines 882-908): for every constructed
interface type whose scope carries a single- or relational-mode polymorphism
spec, push `build.getTypeByName(type.name)` for every declared concrete type
onto the schema's type list (the entry is whatever the lookup returned,
possibly nothing - hence `Option GQLType` entries). -/
def graphQLSchemaTypesHook (allTypes : List GQLType)
    (scopeByType : GQLType → Option ScopeInterface)
    (getTypeByName : String → Option GQLType)
    (types : List (Option GQLType)) : List (Option GQLType) :=
  allTypes.foldl (fun ts t =>
    if t.kind = GQLTypeKind.interface then
      match scopeByType t with
      | some scope =>
        match scope.pgPolymorphism with
        | some polymorphism =>
          match polymorphism with
          | PolymorphismSpec.single _ _ _ =>
            ts ++ (polymorphismTypeNames polymorphism).map getTypeByName
          | PolymorphismSpec.relational _ _ =>
            ts ++ (polymorphismTypeNames polymorphism).map getTypeByName
          | PolymorphismSpec.union => ts
        | none => ts
      | none => ts
    else ts) types

/-! ## Relation behavior suppression (entityBehavior.pgCodecRelation, lines 605-651) -/

/-- The guard of the first suppression branch (lines 619-637), as the source
evaluates it: the relation is unique and forward, the remote codec is a
relational root, some declared subtype's name equals the local codec's table
type name, the registry has the relation registered under that subtype's
shared relation name, and that relation's remote attributes positionally
match the entity's local attributes. -/
def suppressesSubtypeToRoot (tableType : PgCodecM → String)
    (pgRelations : String → String → Option PgCodecRelation)
    (entity : PgCodecRelation) : Prop :=
  entity.isUnique = true ∧ entity.isReferencee = false ∧
  ∃ typeAttributes types,
    entity.remoteResource.codec.polymorphism =
      some (PolymorphismSpec.relational typeAttributes types) ∧
    ∃ tv tspec,
      types.find? (fun p => decide (p.2.name = tableType entity.localCodec)) =
        some (tv, tspec) ∧
      ∃ relation,
        pgRelations entity.remoteResource.codec.name tspec.relationName =
          some relation ∧
        relation.remoteAttributes = entity.localAttributes

/-- The guard of the second suppression branch (lines 640-647): the relation
is a referencee of a relational root and is one of the relations the root's
polymorphism spec names as subtype links. -/
def suppressesRootToSubtype
    (pgRelations : String → String → Option PgCodecRelation)
    (entity : PgCodecRelation) : Prop :=
  entity.isReferencee = true ∧
  ∃ typeAttributes types,
    entity.localCodec.polymorphism =
      some (PolymorphismSpec.relational typeAttributes types) ∧
    (types.map (fun t => pgRelations entity.localCodec.name t.2.relationName)).contains
      (some entity) = true

/-- The state in which line 632 dereferences a missing registry entry (the
first branch matched a subtype entry but `pgRelations[...]?.[relationName]`
is absent): the source throws a TypeError there. -/
def hitsMissingRelation (tableType : PgCodecM → String)
    (pgRelations : String → String → Option PgCodecRelation)
    (entity : PgCodecRelation) : Prop :=
  entity.isUnique = true ∧ entity.isReferencee = false ∧
  ∃ typeAttributes types,
    entity.remoteResource.codec.polymorphism =
      some (PolymorphismSpec.relational typeAttributes types) ∧
    ∃ tv tspec,
      types.find? (fun p => decide (p.2.name = tableType entity.localCodec)) =
        some (tv, tspec) ∧
      pgRelations entity.remoteResource.codec.name tspec.relationName = none

/-- The `entityBehavior.pgCodecRelation` callback (lines 605-651).  Behaviors
are modelled as flag-string lists; returning `[behavior, "-connection -list
-single"]` appends the suppression string.  The dereference of a missing
registry entry at line 632 (a TypeError at runtime) is an `Except.error`. -/
def relationBehaviorCallback (tableType : PgCodecM → String)
    (pgRelations : String → String → Option PgCodecRelation)
    (behavior : List String) (entity : PgCodecRelation) :
    Except String (List String) :=
  let hideRootToRelated : Except String (List String) :=
    if entity.isReferencee then
      match entity.localCodec.polymorphism with
      | some (PolymorphismSpec.relational _ types) =>
        let relations :=
          types.map (fun t => pgRelations entity.localCodec.name t.2.relationName)
        if relations.contains (some entity) then
          Except.ok (behavior ++ ["-connection -list -single"])
        else
          Except.ok behavior
      | _ => Except.ok behavior
    else Except.ok behavior
  if entity.isUnique && !entity.isReferencee then
    match entity.remoteResource.codec.polymorphism with
    | some (PolymorphismSpec.relational _ types) =>
      match types.find? (fun p => decide (p.2.name = tableType entity.localCodec)) with
      | some (_, tspec) =>
        match pgRelations entity.remoteResource.codec.name tspec.relationName with
        | some relation =>
          if arraysMatch relation.remoteAttributes entity.localAttributes then
            Except.ok (behavior ++ ["-connection -list -single"])
          else
            hideRootToRelated
        | none => Except.error "TypeError: relation is undefined"
      | none => hideRootToRelated
    | _ => hideRootToRelated
  else hideRootToRelated

/-! ## Concrete fixtures for counterexamples and witnesses -/

/-- A one-column table (`person(id)`) for the single-mode partition
counterexample. -/
def unionCexClass : PgClass :=
  { oid := 1, relname := "person", nspname := "public",
    attributes := [{ attnum := 1, attname := "id" }], constraints := [] }

/-- A single `@type` tag whose override names an attribute (`bogus`) that is
not a column of `unionCexClass`. -/
def unionCexTags : List (String × SingleTypeSpec) :=
  [("x", { name := "X",
           attributes := [{ attributeName := "bogus", isNotNull := false, rename := none }] })]

/-- A codec with attributes, tagged `@unionMember Shape` twice. -/
def shapeCodec : PgCodecM :=
  { name := "shape", polymorphism := none, extensions := [],
    attributes := some [], unionMember := ["Shape", "Shape"] }

/-- A codec with attributes, tagged `@unionMember Widget` once, for the
union-registration counterexample. -/
def widgetCodec : PgCodecM :=
  { name := "widget", polymorphism := none, extensions := [],
    attributes := some [], unionMember := ["Widget"] }

/-- A constructed type named `Widget` that is an interface, not an object
type (as happens when the member table is itself a polymorphic root). -/
def widgetInterfaceType : GQLType :=
  { name := "Widget", kind := GQLTypeKind.interface }

/-- The spec's literal single-mode example table:
`person(id, kind, name, salary, hourly_rate)`. -/
def personClass : PgClass :=
  { oid := 2, relname := "person", nspname := "public",
    attributes := [{ attnum := 1, attname := "id" }, { attnum := 2, attname := "kind" },
      { attnum := 3, attname := "name" }, { attnum := 4, attname := "salary" },
      { attnum := 5, attname := "hourly_rate" }],
    constraints := [] }

/-- The spec example's two `@type` tags: `Employee` overrides `salary!`,
`Contractor` overrides `hourly_rate`. -/
def personTags : List (String × SingleTypeSpec) :=
  [("employee",
    { name := "Employee",
      attributes := [{ attributeName := "salary", isNotNull := true, rename := none }] }),
   ("contractor",
    { name := "Contractor",
      attributes := [{ attributeName := "hourly_rate", isNotNull := false, rename := none }] })]

/-- A root attribute for the inheritance witness (an `id` column spec). -/
def rootIdAttr : PgCodecAttribute :=
  { codec := "int4", notNull := true, hasDefault := true, via := none,
    identicalVia := none, restrictedAccess := false, description := none,
    extensions := [] }

/-- A subtype-local attribute for the inheritance witness. -/
def subTypeAttr : PgCodecAttribute :=
  { codec := "text", notNull := false, hasDefault := false, via := none,
    identicalVia := none, restrictedAccess := false, description := none,
    extensions := [] }

/-- The target codec of the synthesized-ref witness, carrying one behavior
flag on its extensions. -/
def authorCodec : PgCodecM :=
  { name := "author", polymorphism := none, extensions := ["codecFlag"],
    attributes := some [], unionMember := [] }

/-- The subtype-side codec of the synthesized-ref witness. -/
def itemCodec : PgCodecM :=
  { name := "item", polymorphism := none, extensions := [],
    attributes := some [], unionMember := [] }

/-- A root-to-author relation, with one behavior flag on the remote resource
and one on the relation itself. -/
def authorRelation : PgCodecRelation :=
  { localCodec := itemCodec,
    remoteResource := { codec := authorCodec, extensions := ["resourceFlag"] },
    isUnique := true, isReferencee := false,
    localAttributes := ["author_id"], remoteAttributes := ["id"],
    extensions := ["relationFlag"] }

/-- A concrete inflection for the synthesized-ref witness. -/
def plainRefInflection : RefInflection :=
  { singleRelation := fun r => r,
    singleRelationBackwards := fun r => String.append "reverse" r,
    manyRelationConnection := fun r => String.append r "Connection",
    manyRelationList := fun r => String.append r "List" }

/-- A pre-existing ref under the same name, to be overwritten by the
synthesis pass. -/
def staleRef : PgCodecRef :=
  { definition :=
      { singular := false, singleRecordFieldName := "stale",
        listFieldName := "stale", connectionFieldName := "stale",
        behavior := [] },
    paths := [] }

/-- The relational polymorphism spec of the `vehicle` root: one declared
subtype `Car` reached through the shared relation `carByMyId`. -/
def vehiclePoly : PolymorphismSpec :=
  PolymorphismSpec.relational ["type"]
    [("car", { name := "Car", references := "public.car",
               relationName := "carByMyId" })]

/-- The constructed interface type of the `vehicle` root. -/
def vehicleInterfaceType : GQLType :=
  { name := "Vehicle", kind := GQLTypeKind.interface }

/-- The constructed object type of the `Car` subtype. -/
def carObjectType : GQLType :=
  { name := "Car", kind := GQLTypeKind.object }

/-- The `vehicle` root codec, carrying the relational polymorphism spec. -/
def vehicleRootCodec : PgCodecM :=
  { name := "vehicle", polymorphism := some vehiclePoly, extensions := [],
    attributes := some [], unionMember := [] }

/-- The `car` subtype codec. -/
def carCodec : PgCodecM :=
  { name := "car", polymorphism := none, extensions := [],
    attributes := some [], unionMember := [] }

/-- The unique forward relation from `car` back to its `vehicle` root (the
subtype side of the shared link). -/
def carToVehicle : PgCodecRelation :=
  { localCodec := carCodec,
    remoteResource := { codec := vehicleRootCodec, extensions := [] },
    isUnique := true, isReferencee := false,
    localAttributes := ["vehicle_id"], remoteAttributes := ["id"],
    extensions := [] }

/-- The referencee relation registered on `vehicle` under `carByMyId` (the
root side of the shared link). -/
def vehicleToCar : PgCodecRelation :=
  { localCodec := vehicleRootCodec,
    remoteResource := { codec := carCodec, extensions := [] },
    isUnique := true, isReferencee := true,
    localAttributes := ["id"], remoteAttributes := ["vehicle_id"],
    extensions := [] }

/-- The table-type inflection for the behavior-callback witness. -/
def c10TableType : PgCodecM → String :=
  fun c => if c.name = "car" then "Car" else "Vehicle"

/-- The relation registry for the behavior-callback witness: `vehicle` has
the one relation `carByMyId`. -/
def c10PgRelations : String → String → Option PgCodecRelation :=
  fun codecName relationName =>
    if codecName = "vehicle" then
      (if relationName = "carByMyId" then some vehicleToCar else none)
    else none

/-- The spec's literal relational example: root `vehicle` with primary key
`id`. -/
def vehicleClass : PgClass :=
  { oid := 10, relname := "vehicle", nspname := "public",
    attributes := [{ attnum := 1, attname := "id" }],
    constraints := [
      { contype := PgConType.p, confrelid := 0,
        conAttributes := [{ attnum := 1, attname := "id" }],
        conForeignAttributes := [] }] }

/-- The spec's literal relational example: subtype `car` whose primary key
`vehicle_id` is also a foreign key referencing `vehicle(id)`. -/
def carClass : PgClass :=
  { oid := 11, relname := "car", nspname := "public",
    attributes := [{ attnum := 1, attname := "vehicle_id" }],
    constraints := [
      { contype := PgConType.p, confrelid := 0,
        conAttributes := [{ attnum := 1, attname := "vehicle_id" }],
        conForeignAttributes := [] },
      { contype := PgConType.f, confrelid := 10,
        conAttributes := [{ attnum := 1, attname := "vehicle_id" }],
        conForeignAttributes := [{ attnum := 1, attname := "id" }] }] }

/-- A root with a two-column primary key `(a, b)`. -/
def compositeRootClass : PgClass :=
  { oid := 20, relname := "root2", nspname := "public",
    attributes := [{ attnum := 1, attname := "a" }, { attnum := 2, attname := "b" }],
    constraints := [
      { contype := PgConType.p, confrelid := 0,
        conAttributes := [{ attnum := 1, attname := "a" },
                          { attnum := 2, attname := "b" }],
        conForeignAttributes := [] }] }

/-- A referenced table whose foreign key lists the same columns as its
primary key but in swapped order - positionally mismatched. -/
def compositeSubClassSwapped : PgClass :=
  { oid := 21, relname := "sub2", nspname := "public",
    attributes := [{ attnum := 1, attname := "x" }, { attnum := 2, attname := "y" }],
    constraints := [
      { contype := PgConType.p, confrelid := 0,
        conAttributes := [{ attnum := 1, attname := "x" },
                          { attnum := 2, attname := "y" }],
        conForeignAttributes := [] },
      { contype := PgConType.f, confrelid := 20,
        conAttributes := [{ attnum := 2, attname := "y" },
                          { attnum := 1, attname := "x" }],
        conForeignAttributes := [{ attnum := 1, attname := "a" },
                                 { attnum := 2, attname := "b" }] }] }

/-! ## Helper lemmas about record operations -/

/-- Reading a key just written returns the written value. -/
theorem recordGet_recordSet_self {α : Type} (m : List (String × α)) (k : String)
    (v : α) : recordGet (recordSet m k v) k = some v := by
  induction m with
  | nil => simp [recordSet, recordGet]
  | cons p t ih =>
    obtain ⟨k', v'⟩ := p
    by_cases h : k' = k
    · simp [recordSet, recordGet, h]
    · simp [recordSet, recordGet, h, ih]

/-- Writing one key leaves every other key's value unchanged. -/
theorem recordGet_recordSet_ne {α : Type} (m : List (String × α)) (k k' : String)
    (v : α) (h : k' ≠ k) : recordGet (recordSet m k v) k' = recordGet m k' := by
  have h' : ¬k = k' := fun hk => h hk.symm
  induction m with
  | nil => simp [recordSet, recordGet, h']
  | cons p t ih =>
    obtain ⟨k0, v0⟩ := p
    by_cases h0 : k0 = k
    · subst h0
      simp [recordSet, recordGet, h']
    · simp [recordSet, recordGet, h0, ih]

/-! ## C1: relational-mode foreign-key validation -/

/-- C1: relational-mode `@type` processing accepts the declared subtype
exactly when both classes have a primary key (the first `contype = "p"`
constraint) and the referenced class has a foreign-key constraint targeting
the root whose local attributes positionally equal the referenced class's
primary-key attributes and whose foreign attributes positionally equal the
root's primary-key attributes; otherwise (no such constraint - in particular
one listing the columns in another order - or a missing primary key) the
check fails with an error. -/
theorem relationalTypeFkCheck_ok_iff (root ref : PgClass) :
    (relationalTypeFkCheck root ref).isOk = true ↔
      ∃ pk, findPrimaryKey root = some pk ∧
      ∃ remotePk, findPrimaryKey ref = some remotePk ∧
      ∃ c ∈ ref.constraints, c.contype = PgConType.f ∧ c.confrelid = root.oid ∧
        c.conAttributes = remotePk.conAttributes ∧
        c.conForeignAttributes = pk.conAttributes := by
  unfold relationalTypeFkCheck
  cases hpk : findPrimaryKey root with
  | none =>
    simp only [hpk]
    constructor
    · intro h
      simp [Except.isOk, Except.toBool] at h
    · rintro ⟨pk, hp, -⟩
      exact absurd hp (by simp)
  | some pk =>
    cases hrpk : findPrimaryKey ref with
    | none =>
      simp only [hrpk]
      constructor
      · intro h
        simp [Except.isOk, Except.toBool] at h
      · rintro ⟨pk', hp', rpk, hr, -⟩
        exact absurd hr (by simp)
    | some remotePk =>
      simp only [hrpk]
      cases hfind : ref.constraints.find? (fun c =>
          decide (c.contype = PgConType.f) &&
          decide (c.confrelid = root.oid) &&
          arraysMatch c.conAttributes remotePk.conAttributes &&
          arraysMatch c.conForeignAttributes pk.conAttributes) with
      | none =>
        simp only [hfind]
        constructor
        · intro h
          simp [Except.isOk, Except.toBool] at h
        · rintro ⟨pk', hp', rpk, hr, c, hmem, hf, hcon, ha, hfa⟩
          obtain rfl := Option.some.inj hp'
          obtain rfl := Option.some.inj hr
          exfalso
          rw [List.find?_eq_none] at hfind
          apply hfind c hmem
          simp only [arraysMatch, Bool.and_eq_true, decide_eq_true_eq]
          exact ⟨⟨⟨hf, hcon⟩, ha⟩, hfa⟩
      | some c =>
        simp only [hfind]
        constructor
        · intro _
          refine ⟨pk, rfl, remotePk, rfl, c, List.mem_of_find?_eq_some hfind, ?_⟩
          have hc := List.find?_some hfind
          simp only [arraysMatch, Bool.and_eq_true, decide_eq_true_eq] at hc
          exact ⟨hc.1.1.1, hc.1.1.2, hc.1.2, hc.2⟩
        · intro _
          simp [Except.isOk, Except.toBool]

/-! ## C9: the defaulted discriminator attribute check -/

/-- C9: when the `interface` tag omits the `type` parameter the discriminator
attribute name defaults to `"type"` (so the check behaves as if `type:
"type"` had been given), and the check succeeds exactly when the table has an
attribute of the (possibly defaulted) name - in particular, with the
parameter omitted it errors exactly when no attribute named `"type"`
exists. -/
theorem discriminatorCheck_spec (params : InterfaceTagParams) (cls : PgClass) :
    (params.type = none →
      discriminatorCheck params cls =
        discriminatorCheck { params with type := some "type" } cls) ∧
    ((discriminatorCheck params cls).isOk = true ↔
      ∃ a ∈ cls.attributes, a.attname = params.type.getD "type") ∧
    (params.type = none →
      ((discriminatorCheck params cls).isOk = true ↔
        ∃ a ∈ cls.attributes, a.attname = "type")) := by
  have hmain : (discriminatorCheck params cls).isOk = true ↔
      ∃ a ∈ cls.attributes, a.attname = params.type.getD "type" := by
    unfold discriminatorCheck getAttribute
    cases hfind : cls.attributes.find?
        (fun a => decide (a.attname = params.type.getD "type")) with
    | none =>
      simp only [hfind]
      constructor
      · intro h
        simp [Except.isOk, Except.toBool] at h
      · rintro ⟨a, hmem, hname⟩
        exfalso
        rw [List.find?_eq_none] at hfind
        apply hfind a hmem
        simp [hname]
    | some a =>
      simp only [hfind]
      constructor
      · intro _
        refine ⟨a, List.mem_of_find?_eq_some hfind, ?_⟩
        simpa using List.find?_some hfind
      · intro _
        simp [Except.isOk, Except.toBool]
  refine ⟨?_, hmain, ?_⟩
  · intro h
    simp [discriminatorCheck, h]
  · intro h
    rw [hmain, h]
    simp

/-! ## C6: the attribute-override grammar -/

/-- Splitting a list without the separator yields the single segment. -/
theorem splitOnGt_of_not_mem (l : List Char) (h : '>' ∉ l) :
    splitOnGt l = [l] := by
  induction l with
  | nil => rfl
  | cons c rest ih =>
    simp only [List.mem_cons] at h
    push_neg at h
    have hne : ¬c = '>' := fun hc => h.1 hc.symm
    simp [splitOnGt, hne, ih h.2]

/-- Splitting at the first separator peels off the separator-free head
segment. -/
theorem splitOnGt_append (a b : List Char) (h : '>' ∉ a) :
    splitOnGt (a ++ '>' :: b) = a :: splitOnGt b := by
  induction a with
  | nil => simp [splitOnGt]
  | cons c rest ih =>
    simp only [List.mem_cons] at h
    push_neg at h
    have hne : ¬c = '>' := fun hc => h.1 hc.symm
    have hrest := ih h.2
    simp only [List.cons_append, splitOnGt, if_neg hne]
    rw [List.append_eq, hrest]

/-- `splitOnGt` never returns the empty list. -/
theorem splitOnGt_ne_nil (l : List Char) : splitOnGt l ≠ [] := by
  cases l with
  | nil => simp [splitOnGt]
  | cons c rest =>
    by_cases h : c = '>'
    · simp [splitOnGt, h]
    · simp only [splitOnGt, if_neg h]
      cases splitOnGt rest with
      | nil => simp
      | cons x xs => simp

/-- C6 counterexample: the entry `a!>b` has the claimed shape
`name[!][>rename]` (bare name `a`, then `!`, then `>b`), yet `parseAttribute`
neither strips the `!` nor reports not-null: the whole of `a!` becomes the
attribute name.  The claim's ordering of the suffixes is therefore wrong. -/
theorem parseAttribute_claim_counterexample :
    parseAttribute ['a', '!', '>', 'b'] =
      { attributeName := ['a', '!'], isNotNull := false, rename := some ['b'] } ∧
    ¬((parseAttribute ['a', '!', '>', 'b']).attributeName = ['a'] ∧
      (parseAttribute ['a', '!', '>', 'b']).isNotNull = true) := by
  constructor
  · rfl
  · intro h
    exact absurd h.2 (by decide)

/-- Parsing an entry with a trailing `!`: the bang is stripped and recorded
before the `>` split. -/
theorem parseAttribute_concat_bang (s : List Char) :
    parseAttribute (s ++ ['!']) =
      { attributeName := (splitOnGt s).headD [],
        isNotNull := true,
        rename := match splitOnGt s with
          | _ :: b :: _ => some b
          | _ => none } := by
  have h1 : endsWithBang (s ++ ['!']) = true := by
    simp [endsWithBang, List.getLast?_concat]
  simp [parseAttribute, h1]

/-- Parsing an entry with no trailing `!`: the entry is split on `>`
unchanged. -/
theorem parseAttribute_no_bang (s : List Char) (h : s.getLast? ≠ some '!') :
    parseAttribute s =
      { attributeName := (splitOnGt s).headD [],
        isNotNull := false,
        rename := match splitOnGt s with
          | _ :: b :: _ => some b
          | _ => none } := by
  have h1 : endsWithBang s = false := by
    simp [endsWithBang, h]
  simp [parseAttribute, h1]

/-- C6 (amended): for entries of the form `name[>rename][!]` - the `!`
suffix, when present, comes last - `parseAttribute` returns the bare
attribute name, `isNotNull` true exactly when the `!` suffix is present, and
the rename exactly when the `>rename` part is present. -/
theorem parseAttribute_amended (name rename : List Char)
    (hngt : '>' ∉ name) (hnb : name.getLast? ≠ some '!')
    (hrgt : '>' ∉ rename) (hrb : rename.getLast? ≠ some '!') :
    parseAttribute name =
      { attributeName := name, isNotNull := false, rename := none } ∧
    parseAttribute (name ++ ['!']) =
      { attributeName := name, isNotNull := true, rename := none } ∧
    parseAttribute (name ++ '>' :: rename) =
      { attributeName := name, isNotNull := false, rename := some rename } ∧
    parseAttribute (name ++ '>' :: rename ++ ['!']) =
      { attributeName := name, isNotNull := true, rename := some rename } := by
  have htail : (name ++ '>' :: rename).getLast? ≠ some '!' := by
    rw [List.getLast?_append]
    cases rename with
    | nil => simp [List.getLast?]
    | cons x xs =>
      have h1 : ('>' :: x :: xs).getLast? = (x :: xs).getLast? := by
        rw [show ('>' :: x :: xs) = ['>'] ++ (x :: xs) from rfl, List.getLast?_append]
        cases hx : (x :: xs).getLast? with
        | none => rw [List.getLast?_eq_none_iff] at hx; exact absurd hx (by simp)
        | some y => simp
      rw [h1]
      cases hx : (x :: xs).getLast? with
      | none => rw [List.getLast?_eq_none_iff] at hx; exact absurd hx (by simp)
      | some y =>
        simp only [Option.or_some]
        intro hc
        exact hrb (hx.trans hc)
  refine ⟨?_, ?_, ?_, ?_⟩
  · rw [parseAttribute_no_bang name hnb, splitOnGt_of_not_mem name hngt]
    rfl
  · rw [parseAttribute_concat_bang name, splitOnGt_of_not_mem name hngt]
    rfl
  · rw [parseAttribute_no_bang _ htail, splitOnGt_append name rename hngt,
      splitOnGt_of_not_mem rename hrgt]
    rfl
  · rw [show name ++ '>' :: rename ++ ['!'] = (name ++ '>' :: rename) ++ ['!'] from by
      simp]
    rw [parseAttribute_concat_bang (name ++ '>' :: rename),
      splitOnGt_append name rename hngt, splitOnGt_of_not_mem rename hrgt]
    rfl

/-- C6 witness: the amended grammar at `name = a`, `rename = b`: the four
concrete entries `a`, `a!`, `a>b`, `a>b!` all parse as the amended claim
states. -/
theorem parseAttribute_amended_witness :
    parseAttribute ['a'] =
      { attributeName := ['a'], isNotNull := false, rename := none } ∧
    parseAttribute (['a'] ++ ['!']) =
      { attributeName := ['a'], isNotNull := true, rename := none } ∧
    parseAttribute (['a'] ++ '>' :: ['b']) =
      { attributeName := ['a'], isNotNull := false, rename := some ['b'] } ∧
    parseAttribute (['a'] ++ '>' :: ['b'] ++ ['!']) =
      { attributeName := ['a'], isNotNull := true, rename := some ['b'] } :=
  parseAttribute_amended ['a'] ['b'] (by decide) (by decide) (by decide) (by decide)


/-! ## C2: the single-mode attribute partition -/

/-- C2 counterexample: with table `person(id)` and one `@type` tag whose
override list names the non-existent attribute `bogus`, the union of
`commonAttributes` with the override-named attributes is not the table's full
attribute set: `bogus` is override-named yet is no attribute of the table. -/
theorem singleCommon_union_counterexample :
    "bogus" ∈ singleSpecificAttributes unionCexTags ∧
    "bogus" ∉ singleAttributeNames unionCexClass ∧
    ¬(∀ n, (n ∈ singleCommonAttributes unionCexClass unionCexTags ∨
            n ∈ singleSpecificAttributes unionCexTags) ↔
        n ∈ singleAttributeNames unionCexClass) := by
  refine ⟨by decide, by decide, fun h => ?_⟩
  have hbad := (h "bogus").mp (Or.inr (by decide))
  exact absurd hbad (by decide)

/-- C2 (amended): after single-mode Discovery, `commonAttributes` is exactly
the table's attribute names minus every attribute named in any override list,
so it is disjoint from the override-named attributes; and provided every
override-named attribute is an attribute of the table, the union of
`commonAttributes` with the override-named attributes is the table's full
attribute set. -/
theorem single_commonAttributes_partition (pgClass : PgClass)
    (typeTags : List (String × SingleTypeSpec)) :
    (∀ n, n ∈ singleCommonAttributes pgClass typeTags ↔
        (n ∈ singleAttributeNames pgClass ∧
          ¬n ∈ singleSpecificAttributes typeTags)) ∧
    (∀ n, n ∈ singleCommonAttributes pgClass typeTags →
        ¬n ∈ singleSpecificAttributes typeTags) ∧
    ((∀ n, n ∈ singleSpecificAttributes typeTags →
        n ∈ singleAttributeNames pgClass) →
      ∀ n, n ∈ singleAttributeNames pgClass ↔
        (n ∈ singleCommonAttributes pgClass typeTags ∨
          n ∈ singleSpecificAttributes typeTags)) := by
  have hmem : ∀ n, n ∈ singleCommonAttributes pgClass typeTags ↔
      (n ∈ singleAttributeNames pgClass ∧
        ¬n ∈ singleSpecificAttributes typeTags) := by
    intro n
    unfold singleCommonAttributes
    rw [List.mem_filter]
    constructor
    · rintro ⟨h1, h2⟩
      refine ⟨h1, fun hc => ?_⟩
      rw [Bool.not_eq_true', ← Bool.not_eq_true] at h2
      exact h2 (List.elem_iff.mpr hc)
    · rintro ⟨h1, h2⟩
      refine ⟨h1, ?_⟩
      rw [Bool.not_eq_true', ← Bool.not_eq_true]
      intro hc
      exact h2 (List.elem_iff.mp hc)
  refine ⟨hmem, fun n hn => ((hmem n).mp hn).2, fun hsub n => ?_⟩
  constructor
  · intro hn
    by_cases hs : n ∈ singleSpecificAttributes typeTags
    · exact Or.inr hs
    · exact Or.inl ((hmem n).mpr ⟨hn, hs⟩)
  · rintro (hc | hs)
    · exact ((hmem n).mp hc).1
    · exact hsub n hs

/-- C2 witness: the spec's literal example, `person(id, kind, name, salary,
hourly_rate)` with overrides `salary` and `hourly_rate` (both present on the
table): the partition holds, checked at `id`, `salary` and at the table's
whole attribute list. -/
theorem single_commonAttributes_partition_witness :
    ("id" ∈ singleAttributeNames personClass ↔
      ("id" ∈ singleCommonAttributes personClass personTags ∨
        "id" ∈ singleSpecificAttributes personTags)) ∧
    ("salary" ∈ singleAttributeNames personClass ↔
      ("salary" ∈ singleCommonAttributes personClass personTags ∨
        "salary" ∈ singleSpecificAttributes personTags)) :=
  ⟨(single_commonAttributes_partition personClass personTags).2.2
      (by decide) "id",
   (single_commonAttributes_partition personClass personTags).2.2
      (by decide) "salary"⟩


/-! ## C3: relational attribute inheritance -/

/-- Unfolding one step of the inheritance fold. -/
theorem inheritAttributes_cons (q : String × PgCodecAttribute)
    (t : List (String × PgCodecAttribute)) (shared : String)
    (m : List (String × PgCodecAttribute)) :
    inheritAttributes (q :: t) shared m =
      inheritAttributes t shared
        (match recordGet m q.1 with
         | some a => recordSet m q.1 { a with identicalVia := some shared }
         | none =>
           recordSet m q.1
             { codec := q.2.codec,
               notNull := q.2.notNull,
               hasDefault := q.2.hasDefault,
               via := some shared,
               identicalVia := none,
               restrictedAccess := q.2.restrictedAccess,
               description := q.2.description,
               extensions := q.2.extensions }) := rfl

/-- The inheritance pass leaves keys outside the root's attribute names
untouched. -/
theorem inheritAttributes_get_of_not_mem
    (rootAttrs : List (String × PgCodecAttribute)) (shared : String)
    (n : String) (h : ¬n ∈ rootAttrs.map Prod.fst) :
    ∀ m, recordGet (inheritAttributes rootAttrs shared m) n = recordGet m n := by
  induction rootAttrs with
  | nil => intro m; rfl
  | cons q t ih =>
    intro m
    simp only [List.map_cons, List.mem_cons, not_or] at h
    obtain ⟨h1, h2⟩ := h
    rw [inheritAttributes_cons, ih h2]
    cases hg : recordGet m q.1 with
    | some a => exact recordGet_recordSet_ne m q.1 n _ h1
    | none => exact recordGet_recordSet_ne m q.1 n _ h1

/-- C3: after the inheritance pass, every root attribute name resolves on the
subtype: a name the subtype already defined keeps its attribute with
`identicalVia` set to the shared relation name, a name it lacked gains a new
attribute carrying the root's codec, notNull, hasDefault and restrictedAccess
with `via` set to the shared relation name; hence the subtype's
attribute-name set is a superset of the root's, and the attribute at every
root name carries `identicalVia` or `via` naming the shared relation. -/
theorem inheritAttributes_inherits
    (rootAttrs : List (String × PgCodecAttribute)) (shared : String)
    (subAttrs : List (String × PgCodecAttribute))
    (hnodup : (rootAttrs.map Prod.fst).Nodup)
    (p : String × PgCodecAttribute) (hp : p ∈ rootAttrs) :
    recordGet (inheritAttributes rootAttrs shared subAttrs) p.1 =
      some (match recordGet subAttrs p.1 with
        | some a => { a with identicalVia := some shared }
        | none =>
          { codec := p.2.codec,
            notNull := p.2.notNull,
            hasDefault := p.2.hasDefault,
            via := some shared,
            identicalVia := none,
            restrictedAccess := p.2.restrictedAccess,
            description := p.2.description,
            extensions := p.2.extensions }) ∧
    (recordGet (inheritAttributes rootAttrs shared subAttrs) p.1).isSome = true ∧
    (∀ a', recordGet (inheritAttributes rootAttrs shared subAttrs) p.1 = some a' →
      (a'.identicalVia = some shared ∨ a'.via = some shared)) := by
  have hmain : recordGet (inheritAttributes rootAttrs shared subAttrs) p.1 =
      some (match recordGet subAttrs p.1 with
        | some a => { a with identicalVia := some shared }
        | none =>
          { codec := p.2.codec,
            notNull := p.2.notNull,
            hasDefault := p.2.hasDefault,
            via := some shared,
            identicalVia := none,
            restrictedAccess := p.2.restrictedAccess,
            description := p.2.description,
            extensions := p.2.extensions }) := by
    induction rootAttrs generalizing subAttrs with
    | nil => exact absurd hp (by simp)
    | cons q t ih =>
      rw [inheritAttributes_cons]
      have hq1 : q.1 ∉ t.map Prod.fst ∧ (t.map Prod.fst).Nodup := by
        rw [List.map_cons] at hnodup
        exact List.nodup_cons.mp hnodup
      rcases List.mem_cons.mp hp with rfl | hpt
      · rw [inheritAttributes_get_of_not_mem t shared p.1 hq1.1]
        cases hg : recordGet subAttrs p.1 with
        | some a => simp [recordGet_recordSet_self]
        | none => simp [recordGet_recordSet_self]
      · have hp1 : p.1 ∈ t.map Prod.fst := List.mem_map_of_mem Prod.fst hpt
        have hne : p.1 ≠ q.1 := fun he => hq1.1 (he ▸ hp1)
        have hm1 : recordGet
            (match recordGet subAttrs q.1 with
             | some a => recordSet subAttrs q.1 { a with identicalVia := some shared }
             | none =>
               recordSet subAttrs q.1
                 { codec := q.2.codec,
                   notNull := q.2.notNull,
                   hasDefault := q.2.hasDefault,
                   via := some shared,
                   identicalVia := none,
                   restrictedAccess := q.2.restrictedAccess,
                   description := q.2.description,
                   extensions := q.2.extensions }) p.1 = recordGet subAttrs p.1 := by
          cases hg : recordGet subAttrs q.1 with
          | some a => exact recordGet_recordSet_ne subAttrs q.1 p.1 _ hne
          | none => exact recordGet_recordSet_ne subAttrs q.1 p.1 _ hne
        rw [ih _ hq1.2 hpt, hm1]
  refine ⟨hmain, by rw [hmain]; rfl, ?_⟩
  intro a' ha'
  rw [hmain] at ha'
  cases hg : recordGet subAttrs p.1 with
  | some a =>
    rw [hg] at ha'
    cases Option.some.inj ha'
    left
    rfl
  | none =>
    rw [hg] at ha'
    cases Option.some.inj ha'
    right
    rfl

/-- C3 witness: a root with attributes `id` and `extra` inherited into a
subtype that only defines `id`: `extra` is synthesized with `via` naming the
shared relation, and the attribute found at `extra` carries `via` or
`identicalVia`. -/
theorem inheritAttributes_inherits_witness :
    recordGet
        (inheritAttributes [("id", rootIdAttr), ("extra", rootIdAttr)]
          "itemById" [("id", subTypeAttr)]) "extra" =
      some { codec := rootIdAttr.codec,
             notNull := rootIdAttr.notNull,
             hasDefault := rootIdAttr.hasDefault,
             via := some "itemById",
             identicalVia := none,
             restrictedAccess := rootIdAttr.restrictedAccess,
             description := rootIdAttr.description,
             extensions := rootIdAttr.extensions } ∧
    (recordGet
        (inheritAttributes [("id", rootIdAttr), ("extra", rootIdAttr)]
          "itemById" [("id", subTypeAttr)]) "extra").isSome = true ∧
    (∀ a', recordGet
        (inheritAttributes [("id", rootIdAttr), ("extra", rootIdAttr)]
          "itemById" [("id", subTypeAttr)]) "extra" = some a' →
      (a'.identicalVia = some "itemById" ∨ a'.via = some "itemById")) :=
  inheritAttributes_inherits [("id", rootIdAttr), ("extra", rootIdAttr)]
    "itemById" [("id", subTypeAttr)] (by decide) ("extra", rootIdAttr) (by decide)


/-! ## C4: reference synthesis on subtypes -/

/-- Unfolding one step of the ref-synthesis fold. -/
theorem synthesizeRefs_cons (inflect : RefInflection) (shared : String)
    (q : String × PgCodecRelation) (t : List (String × PgCodecRelation))
    (refs : List (String × PgCodecRef)) :
    synthesizeRefsForSubtype inflect shared (q :: t) refs =
      synthesizeRefsForSubtype inflect shared t
        (recordSet refs q.1
          { definition :=
              { singular := q.2.isUnique,
                singleRecordFieldName :=
                  if q.2.isReferencee then inflect.singleRelationBackwards q.1
                  else inflect.singleRelation q.1,
                listFieldName := inflect.manyRelationList q.1,
                connectionFieldName := inflect.manyRelationConnection q.1,
                behavior := getBehavior
                  [q.2.remoteResource.codec.extensions,
                   q.2.remoteResource.extensions,
                   q.2.extensions] },
            paths := [[{ relationName := shared }, { relationName := q.1 }]] }) := rfl

/-- The ref-synthesis pass leaves keys outside the root's relation names
untouched. -/
theorem synthesizeRefs_get_of_not_mem (inflect : RefInflection) (shared : String)
    (relations : List (String × PgCodecRelation)) (n : String)
    (h : ¬n ∈ relations.map Prod.fst) :
    ∀ refs, recordGet (synthesizeRefsForSubtype inflect shared relations refs) n =
      recordGet refs n := by
  induction relations with
  | nil => intro refs; rfl
  | cons q t ih =>
    intro refs
    simp only [List.map_cons, List.mem_cons, not_or] at h
    obtain ⟨h1, h2⟩ := h
    rw [synthesizeRefs_cons, ih h2]
    exact recordGet_recordSet_ne refs q.1 n _ h1

/-- C4: for every relation registered on the root, the synthesis pass leaves
on the subtype's refs, under that relation's name, a ref whose single path is
the shared relation followed by the original relation, whose field names come
from the inflection applied to the original relation, and whose behavior is
`getBehavior` over the target resource's codec extensions, the target
resource's extensions and the relation's extensions - which is exactly the
union (concatenation) of the three flag lists; the write lands whatever ref
of that name was there before (last-writer-wins, as the arbitrary initial
`refs` shows). -/
theorem synthesizeRefs_spec (inflect : RefInflection) (shared : String)
    (relations : List (String × PgCodecRelation))
    (refs : List (String × PgCodecRef))
    (hnodup : (relations.map Prod.fst).Nodup)
    (p : String × PgCodecRelation) (hp : p ∈ relations) :
    recordGet (synthesizeRefsForSubtype inflect shared relations refs) p.1 =
      some { definition :=
               { singular := p.2.isUnique,
                 singleRecordFieldName :=
                   if p.2.isReferencee then inflect.singleRelationBackwards p.1
                   else inflect.singleRelation p.1,
                 listFieldName := inflect.manyRelationList p.1,
                 connectionFieldName := inflect.manyRelationConnection p.1,
                 behavior := getBehavior
                   [p.2.remoteResource.codec.extensions,
                    p.2.remoteResource.extensions,
                    p.2.extensions] },
             paths := [[{ relationName := shared }, { relationName := p.1 }]] } ∧
    getBehavior
        [p.2.remoteResource.codec.extensions,
         p.2.remoteResource.extensions,
         p.2.extensions] =
      p.2.remoteResource.codec.extensions ++ p.2.remoteResource.extensions ++
        p.2.extensions := by
  constructor
  · induction relations generalizing refs with
    | nil => exact absurd hp (by simp)
    | cons q t ih =>
      rw [synthesizeRefs_cons]
      have hq1 : q.1 ∉ t.map Prod.fst ∧ (t.map Prod.fst).Nodup := by
        rw [List.map_cons] at hnodup
        exact List.nodup_cons.mp hnodup
      rcases List.mem_cons.mp hp with rfl | hpt
      · rw [synthesizeRefs_get_of_not_mem inflect shared t p.1 hq1.1]
        exact recordGet_recordSet_self refs p.1 _
      · exact ih _ hq1.2 hpt
  · simp [getBehavior]

/-- C4 witness: the root relation `author` (unique, forward, one behavior
flag at each of the three sources) synthesized onto a subtype that already
had a stale `author` ref: the stale ref is overwritten by the two-hop ref and
the behavior is the concatenation of the three flag lists. -/
theorem synthesizeRefs_witness :
    recordGet (synthesizeRefsForSubtype plainRefInflection "itemById"
        [("author", authorRelation)] [("author", staleRef)]) "author" =
      some { definition :=
               { singular := true,
                 singleRecordFieldName := "author",
                 listFieldName := "authorList",
                 connectionFieldName := "authorConnection",
                 behavior := ["codecFlag", "resourceFlag", "relationFlag"] },
             paths := [[{ relationName := "itemById" },
                        { relationName := "author" }]] } ∧
    ["codecFlag", "resourceFlag", "relationFlag"] =
      ["codecFlag"] ++ ["resourceFlag"] ++ ["relationFlag"] :=
  synthesizeRefs_spec plainRefInflection "itemById" [("author", authorRelation)]
    [("author", staleRef)] (by decide) ("author", authorRelation) (by decide)

/-! ## C5: union membership accumulation -/

/-- One membership registration read back: the registered union name gains
the codec at the end of its member list (created as `[codec]` when absent);
every other union name is untouched. -/
theorem recordGet_addUnionMembership (acc : List (String × List PgCodecM))
    (nm : String) (c : PgCodecM) (u : String) :
    recordGet (addUnionMembership acc nm c) u =
      if u = nm then
        (match recordGet acc nm with
         | none => some [c]
         | some l => some (l ++ [c]))
      else recordGet acc u := by
  unfold addUnionMembership
  by_cases h : u = nm
  · subst h
    cases hg : recordGet acc u with
    | none => simp [hg, recordGet_recordSet_self]
    | some l => simp [hg, recordGet_recordSet_self]
  · cases hg : recordGet acc nm with
    | none => simp [hg, h, recordGet_recordSet_ne acc nm u _ h]
    | some l => simp [hg, h, recordGet_recordSet_ne acc nm u _ h]

/-- Folding one codec's membership tags: the union name `u` gains one copy of
the codec per tag occurrence trimming to `u`, appended in tag order. -/
theorem recordGet_membership_fold (ms : List String) (c : PgCodecM) (u : String) :
    ∀ acc, recordGet
        (ms.foldl (fun a m => addUnionMembership a (strTrim m) c) acc) u =
      (match recordGet acc u with
       | none =>
         if (ms.filter (fun m => decide (strTrim m = u))).map (fun _ => c) = []
         then none
         else some ((ms.filter (fun m => decide (strTrim m = u))).map (fun _ => c))
       | some l =>
         some (l ++ (ms.filter (fun m => decide (strTrim m = u))).map (fun _ => c))) := by
  induction ms with
  | nil =>
    intro acc
    simp only [List.foldl_nil]
    cases hg : recordGet acc u <;> simp [hg]
  | cons m rest ih =>
    intro acc
    rw [List.foldl_cons, ih, recordGet_addUnionMembership]
    by_cases h : u = strTrim m
    · subst h
      rw [if_pos rfl]
      have hfilter : List.filter (fun x => decide (strTrim x = strTrim m)) (m :: rest) =
          m :: List.filter (fun x => decide (strTrim x = strTrim m)) rest := by
        simp [List.filter_cons]
      rw [hfilter, List.map_cons]
      cases hg : recordGet acc (strTrim m) with
      | none => simp [hg]
      | some l => simp [hg]
    · rw [if_neg h]
      have h' : strTrim m ≠ u := fun he => h he.symm
      have hfilter : List.filter (fun x => decide (strTrim x = u)) (m :: rest) =
          List.filter (fun x => decide (strTrim x = u)) rest := by
        simp [List.filter_cons, h']
      rw [hfilter]

/-- The per-codec contribution splits off the head codec. -/
theorem unionMembershipOccurrences_cons (cd : PgCodecM) (rest : List PgCodecM)
    (u : String) :
    unionMembershipOccurrences (cd :: rest) u =
      (match cd.attributes with
       | none => []
       | some _ =>
         (cd.unionMember.filter (fun m => decide (strTrim m = u))).map
           (fun _ => cd)) ++ unionMembershipOccurrences rest u := by
  simp [unionMembershipOccurrences]

/-- The accumulation fold, characterized against an arbitrary starting
accumulator. -/
theorem recordGet_accumulate_aux (codecs : List PgCodecM) (u : String) :
    ∀ acc, recordGet
        (codecs.foldl (fun acc codec =>
          match codec.attributes with
          | none => acc
          | some _ =>
            codec.unionMember.foldl
              (fun acc2 membership =>
                addUnionMembership acc2 (strTrim membership) codec)
              acc) acc) u =
      (match recordGet acc u with
       | none =>
         if unionMembershipOccurrences codecs u = [] then none
         else some (unionMembershipOccurrences codecs u)
       | some l => some (l ++ unionMembershipOccurrences codecs u)) := by
  induction codecs with
  | nil =>
    intro acc
    simp only [List.foldl_nil]
    cases hg : recordGet acc u <;> simp [hg, unionMembershipOccurrences]
  | cons cd rest ih =>
    intro acc
    rw [List.foldl_cons, ih, unionMembershipOccurrences_cons]
    cases hattr : cd.attributes with
    | none =>
      rfl
    | some attrs =>
      rw [recordGet_membership_fold]
      cases hg : recordGet acc u with
      | none =>
        cases hocc : (cd.unionMember.filter (fun m => decide (strTrim m = u))).map
            (fun _ => cd) with
        | nil => simp
        | cons x xs => simp
      | some l =>
        simp [List.append_assoc]

/-- C5 (amended): the accumulated member list of every union name is not
deduplicated: it holds one entry per `@unionMember` tag occurrence whose
trimmed value is that union name - so a TypeDescriptor tagged with the same
value more than once contributes one entry per occurrence - and the entries
appear in codec-scan then tag order; a name with no occurrence has no
entry. -/
theorem accumulateUnionMemberships_spec (codecs : List PgCodecM) (u : String) :
    recordGet (accumulateUnionMemberships codecs) u =
      (if unionMembershipOccurrences codecs u = [] then none
       else some (unionMembershipOccurrences codecs u)) := by
  unfold accumulateUnionMemberships
  rw [recordGet_accumulate_aux]
  rfl

/-- C5 counterexample: a codec tagged `@unionMember Shape` twice contributes
two entries to the `Shape` member list, not the single entry the dedup claim
predicts. -/
theorem accumulate_dedup_counterexample :
    recordGet (accumulateUnionMemberships [shapeCodec]) "Shape" =
      some [shapeCodec, shapeCodec] ∧
    recordGet (accumulateUnionMemberships [shapeCodec]) "Shape" ≠
      some [shapeCodec] := by
  constructor
  · decide
  · decide


/-! ## C7: interface completeness -/

/-- Unfolding one step of the `GraphQLSchema_types` fold. -/
theorem graphQLSchemaTypesHook_cons (t : GQLType) (rest : List GQLType)
    (scopeByType : GQLType → Option ScopeInterface)
    (getTypeByName : String → Option GQLType) (ts : List (Option GQLType)) :
    graphQLSchemaTypesHook (t :: rest) scopeByType getTypeByName ts =
      graphQLSchemaTypesHook rest scopeByType getTypeByName
        (if t.kind = GQLTypeKind.interface then
          match scopeByType t with
          | some scope =>
            match scope.pgPolymorphism with
            | some polymorphism =>
              match polymorphism with
              | PolymorphismSpec.single _ _ _ =>
                ts ++ (polymorphismTypeNames polymorphism).map getTypeByName
              | PolymorphismSpec.relational _ _ =>
                ts ++ (polymorphismTypeNames polymorphism).map getTypeByName
              | PolymorphismSpec.union => ts
            | none => ts
          | none => ts
        else ts) := rfl

/-- The hook only ever appends: entries of the incoming type list stay in the
outgoing list. -/
theorem graphQLSchemaTypesHook_mono (allTypes : List GQLType)
    (scopeByType : GQLType → Option ScopeInterface)
    (getTypeByName : String → Option GQLType) (x : Option GQLType) :
    ∀ ts, x ∈ ts → x ∈ graphQLSchemaTypesHook allTypes scopeByType getTypeByName ts := by
  induction allTypes with
  | nil => intro ts hx; exact hx
  | cons t rest ih =>
    intro ts hx
    rw [graphQLSchemaTypesHook_cons]
    apply ih
    split
    · split
      · split
        · split
          · exact List.mem_append_left _ hx
          · exact List.mem_append_left _ hx
          · exact hx
        · exact hx
      · exact hx
    · exact hx

/-- C7: when the schema's type set is assembled, for every constructed
interface type whose registration scope carries a single- or relational-mode
polymorphism spec and for every declared concrete subtype name, the result of
realizing that name through `getTypeByName` is included in the final type
list (regardless of what the list held before - nothing else needs to
reference the subtype). -/
theorem graphQLSchemaTypes_complete (allTypes : List GQLType)
    (scopeByType : GQLType → Option ScopeInterface)
    (getTypeByName : String → Option GQLType) (types : List (Option GQLType))
    (iface : GQLType) (sc : ScopeInterface) (poly : PolymorphismSpec)
    (subName : String)
    (hmem : iface ∈ allTypes) (hkind : iface.kind = GQLTypeKind.interface)
    (hsc : scopeByType iface = some sc) (hpoly : sc.pgPolymorphism = some poly)
    (hsub : subName ∈ polymorphismTypeNames poly) :
    getTypeByName subName ∈
      graphQLSchemaTypesHook allTypes scopeByType getTypeByName types := by
  induction allTypes generalizing types with
  | nil => cases hmem
  | cons t rest ih =>
    rw [graphQLSchemaTypesHook_cons]
    rcases List.mem_cons.mp hmem with rfl | hmem'
    · apply graphQLSchemaTypesHook_mono
      simp only [if_pos hkind, hsc, hpoly]
      cases poly with
      | single a b c =>
        exact List.mem_append_right _ (List.mem_map_of_mem getTypeByName hsub)
      | relational a b =>
        exact List.mem_append_right _ (List.mem_map_of_mem getTypeByName hsub)
      | union => exact absurd hsub (by simp [polymorphismTypeNames])
    · exact ih _ hmem'

/-- C7 witness: a schema holding only the `Vehicle` interface (scope carrying
the relational spec naming `Car`): realizing `Car` lands the constructed
object type in the final type list even though nothing referenced it. -/
theorem graphQLSchemaTypes_complete_witness :
    some carObjectType ∈
      graphQLSchemaTypesHook [vehicleInterfaceType]
        (fun t => if t = vehicleInterfaceType then
            some { pgPolymorphism := some vehiclePoly } else none)
        (fun n => if n = "Car" then some carObjectType else none) [] :=
  graphQLSchemaTypes_complete [vehicleInterfaceType]
    (fun t => if t = vehicleInterfaceType then
        some { pgPolymorphism := some vehiclePoly } else none)
    (fun n => if n = "Car" then some carObjectType else none) []
    vehicleInterfaceType { pgPolymorphism := some vehiclePoly } vehiclePoly "Car"
    (by decide) (by decide) (by decide) (by decide) (by decide)

/-! ## C8: union type registration -/

/-- Reading a key-preserving map through `recordGet`: with distinct keys, the
entry of `p` is found and carries the mapped value. -/
theorem recordGet_map_of_nodup {α β : Type} (l : List (String × α))
    (F : String × α → β) (hnodup : (l.map Prod.fst).Nodup)
    (p : String × α) (hp : p ∈ l) :
    recordGet (l.map (fun q => (q.1, F q))) p.1 = some (F p) := by
  induction l with
  | nil => cases hp
  | cons q t ih =>
    have hq1 : q.1 ∉ t.map Prod.fst ∧ (t.map Prod.fst).Nodup := by
      rw [List.map_cons] at hnodup
      exact List.nodup_cons.mp hnodup
    rcases List.mem_cons.mp hp with rfl | hpt
    · simp [recordGet]
    · have hne : q.1 ≠ p.1 :=
        fun he => hq1.1 (he ▸ List.mem_map_of_mem Prod.fst hpt)
      simp only [List.map_cons]
      rw [show recordGet ((q.1, F q) :: t.map (fun q => (q.1, F q))) p.1 =
          recordGet (t.map (fun q => (q.1, F q))) p.1 from by
        simp [recordGet, hne]]
      exact ih hq1.2 hpt

/-- C8 (amended): for each accumulated union name exactly one union type is
registered (the name list is preserved one-to-one), and its member list is
exactly the types that `getTypeByName` actually resolved for the members'
table type names - whatever named type was constructed, not necessarily an
object type; member names resolving to no constructed type are dropped with
no error (the registration is total). -/
theorem registerUnionTypes_spec (acc : List (String × List PgCodecM))
    (tableType : PgCodecM → String) (getTypeByName : String → Option GQLType)
    (hnodup : (acc.map Prod.fst).Nodup)
    (p : String × List PgCodecM) (hp : p ∈ acc) :
    (registerUnionTypes acc tableType getTypeByName).map Prod.fst =
      acc.map Prod.fst ∧
    ∃ ms, recordGet (registerUnionTypes acc tableType getTypeByName) p.1 =
        some ms ∧
      ∀ t, t ∈ ms ↔ ∃ c ∈ p.2, getTypeByName (tableType c) = some t := by
  constructor
  · simp [registerUnionTypes]
  · refine ⟨(p.2.map (fun codec => getTypeByName (tableType codec))).filterMap id,
      ?_, ?_⟩
    · exact recordGet_map_of_nodup acc
        (fun q => (q.2.map (fun codec => getTypeByName (tableType codec))).filterMap id)
        hnodup p hp
    · intro t
      constructor
      · intro ht
        rw [List.mem_filterMap] at ht
        obtain ⟨o, ho, hid⟩ := ht
        rw [List.mem_map] at ho
        obtain ⟨c, hc, rfl⟩ := ho
        exact ⟨c, hc, hid⟩
      · rintro ⟨c, hc, hgt⟩
        rw [List.mem_filterMap]
        exact ⟨getTypeByName (tableType c), List.mem_map_of_mem _ hc, hgt⟩

/-- C8 counterexample: the accumulated member `widgetCodec` resolves to a
constructed type named `Widget` that is an interface, not an object type; the
registered union keeps it as a member anyway, so the member list is not "the
subset for which an object type was constructed". -/
theorem registerUnions_object_counterexample :
    registerUnionTypes [("Widget", [widgetCodec])] (fun _ => "Widget")
        (fun n => if n = "Widget" then some widgetInterfaceType else none) =
      [("Widget", [widgetInterfaceType])] ∧
    widgetInterfaceType.kind ≠ GQLTypeKind.object := by
  constructor
  · decide
  · decide

/-- C8 witness: the registration at the one-member accumulator: one union
named `Widget` is registered and its member list is exactly what
`getTypeByName` resolved. -/
theorem registerUnionTypes_spec_witness :
    (registerUnionTypes [("Widget", [widgetCodec])] (fun _ => "Widget")
        (fun n => if n = "Widget" then some widgetInterfaceType else none)).map
        Prod.fst =
      [("Widget", [widgetCodec])].map Prod.fst ∧
    ∃ ms, recordGet
        (registerUnionTypes [("Widget", [widgetCodec])] (fun _ => "Widget")
          (fun n => if n = "Widget" then some widgetInterfaceType else none))
        "Widget" = some ms ∧
      ∀ t, t ∈ ms ↔ ∃ c ∈ [widgetCodec],
        (fun n => if n = "Widget" then some widgetInterfaceType else none)
            ((fun _ => "Widget") c) = some t :=
  registerUnionTypes_spec [("Widget", [widgetCodec])] (fun _ => "Widget")
    (fun n => if n = "Widget" then some widgetInterfaceType else none)
    (by decide) ("Widget", [widgetCodec]) (by decide)

/-! ## C1 witness facts -/

/-- C1 witness: the spec's literal example - `car(vehicle_id)` referencing
`vehicle(id)` positionally is accepted; a composite key referenced through a
foreign key listing the same columns in swapped order is rejected. -/
theorem relationalTypeFkCheck_witness :
    (relationalTypeFkCheck vehicleClass carClass).isOk = true ∧
    (relationalTypeFkCheck compositeRootClass compositeSubClassSwapped).isOk =
      false := by
  constructor
  · decide
  · decide

/-! ## C10: relation behavior suppression -/

/-- C10: the relation-behavior callback appends `-connection -list -single`
to the behavior exactly for the unique forward relation from a declared
relational subtype back to its root whose local attributes positionally match
the registered shared relation's remote attributes, and for a referencee
relation of a relational root that is one of its registered subtype link
relations; every other relation (short of the defective registry state in
which the named shared relation is unregistered, where the source throws)
gets its behavior back unchanged. -/
theorem relationBehaviorCallback_spec (tableType : PgCodecM → String)
    (pgRelations : String → String → Option PgCodecRelation)
    (behavior : List String) (entity : PgCodecRelation) :
    (suppressesSubtypeToRoot tableType pgRelations entity →
      relationBehaviorCallback tableType pgRelations behavior entity =
        Except.ok (behavior ++ ["-connection -list -single"])) ∧
    (suppressesRootToSubtype pgRelations entity →
      relationBehaviorCallback tableType pgRelations behavior entity =
        Except.ok (behavior ++ ["-connection -list -single"])) ∧
    (¬suppressesSubtypeToRoot tableType pgRelations entity →
      ¬suppressesRootToSubtype pgRelations entity →
      ¬hitsMissingRelation tableType pgRelations entity →
      relationBehaviorCallback tableType pgRelations behavior entity =
        Except.ok behavior) := by
  refine ⟨?_, ?_, ?_⟩
  · rintro ⟨hu, hr, tA, tys, hpoly, tv, tspec, hfind, rel, hrel, hmatch⟩
    simp [relationBehaviorCallback, hu, hr, hpoly, hfind, hrel, arraysMatch,
      hmatch]
  · rintro ⟨hr, tA, tys, hpoly, hcont⟩
    simp [relationBehaviorCallback, hr, hpoly]
    obtain ⟨x, hx, hbeq⟩ := List.contains_iff_exists_mem_beq.mp hcont
    rw [List.mem_map] at hx
    obtain ⟨pair, hpair, rfl⟩ := hx
    exact ⟨pair.1, pair.2, hpair, (eq_of_beq hbeq).symm⟩
  · intro hnA hnB hnC
    cases hr : entity.isReferencee with
    | true =>
      cases hlp : entity.localCodec.polymorphism with
      | none => simp [relationBehaviorCallback, hr, hlp]
      | some p =>
        cases p with
        | single a b c => simp [relationBehaviorCallback, hr, hlp]
        | relational tA tys =>
          cases hcont : (tys.map (fun t =>
              pgRelations entity.localCodec.name t.2.relationName)).contains
              (some entity) with
          | true => exact absurd ⟨hr, tA, tys, hlp, hcont⟩ hnB
          | false =>
            simp [relationBehaviorCallback, hr, hlp, hcont]
            intro x x1 hmem heq
            have hc : (List.map (fun t => pgRelations entity.localCodec.name
                t.2.relationName) tys).contains (some entity) = true :=
              List.contains_iff_exists_mem_beq.mpr
                ⟨pgRelations entity.localCodec.name x1.relationName,
                 List.mem_map_of_mem _ hmem, beq_iff_eq.mpr heq.symm⟩
            rw [hcont] at hc
            exact Bool.false_ne_true hc
        | union => simp [relationBehaviorCallback, hr, hlp]
    | false =>
      cases hu : entity.isUnique with
      | false => simp [relationBehaviorCallback, hr, hu]
      | true =>
        cases hpoly : entity.remoteResource.codec.polymorphism with
        | none => simp [relationBehaviorCallback, hr, hu, hpoly]
        | some p =>
          cases p with
          | single a b c => simp [relationBehaviorCallback, hr, hu, hpoly]
          | relational tA tys =>
            cases hfind : tys.find? (fun p =>
                decide (p.2.name = tableType entity.localCodec)) with
            | none => simp [relationBehaviorCallback, hr, hu, hpoly, hfind]
            | some pr2 =>
              obtain ⟨tv, tspec⟩ := pr2
              cases hrel : pgRelations entity.remoteResource.codec.name
                  tspec.relationName with
              | none =>
                exact absurd ⟨hu, hr, tA, tys, hpoly, tv, tspec, hfind, hrel⟩ hnC
              | some rel =>
                cases hm : arraysMatch rel.remoteAttributes
                    entity.localAttributes with
                | true =>
                  have hmeq : rel.remoteAttributes = entity.localAttributes := by
                    simpa [arraysMatch] using hm
                  exact absurd
                    ⟨hu, hr, tA, tys, hpoly, tv, tspec, hfind, rel, hrel, hmeq⟩
                    hnA
                | false =>
                  simp [relationBehaviorCallback, hr, hu, hpoly, hfind, hrel, hm]
          | union => simp [relationBehaviorCallback, hr, hu, hpoly]

/-- C10 witness: in the `vehicle`/`car` registry, the subtype-to-root
relation and the root's registered subtype link relation both get the
suppression flags appended. -/
theorem relationBehaviorCallback_witness :
    relationBehaviorCallback c10TableType c10PgRelations ["default"]
        carToVehicle =
      Except.ok (["default"] ++ ["-connection -list -single"]) ∧
    relationBehaviorCallback c10TableType c10PgRelations ["default"]
        vehicleToCar =
      Except.ok (["default"] ++ ["-connection -list -single"]) :=
  ⟨(relationBehaviorCallback_spec c10TableType c10PgRelations ["default"]
      carToVehicle).1
    ⟨rfl, rfl, ["type"],
     [("car", { name := "Car", references := "public.car",
                relationName := "carByMyId" })], by decide,
     "car", { name := "Car", references := "public.car",
              relationName := "carByMyId" }, by decide,
     vehicleToCar, by decide, by decide⟩,
   (relationBehaviorCallback_spec c10TableType c10PgRelations ["default"]
      vehicleToCar).2.1
    ⟨rfl, ["type"],
     [("car", { name := "Car", references := "public.car",
                relationName := "carByMyId" })], by decide, by decide⟩⟩
